/-
Verification of the twitch-observer chat client
(`src/twitchobserver/twitchobserver.py`) against its natural-language
specification.

The Python module is shallowly embedded below: pure fragments become Lean
functions on `List Char` / `String`, the regular expressions become an
explicit backtracking matcher over a small regex AST, and the stateful
parts (socket writes, queues, warnings) become explicit state passing on
an `ObserverState` record.  Machine-level concerns (actual sockets,
threads, wall-clock time) are modelled by explicit inputs: byte chunks,
interleaved step traces, and rational-valued timestamps.
-/
import Mathlib

set_option maxHeartbeats 1000000

namespace TwitchObserver

/-! ## Frame decoder (`inbound_worker`, lines 411-425)

The worker keeps a `truncated_response` buffer.  Each iteration computes
`response = truncated_response + recv()`; if `"\r\n"` occurs in it, the
buffer is `rsplit` on the last `"\r\n"` (head processed, tail kept),
otherwise the whole buffer is kept and the empty string is processed.
`_process_server_messages` (line 511) then iterates over
`[m for m in response.split('\r\n') if m]`.
-/

/-- Python `s.split("\r\n")` on a character list: the segments between
non-overlapping occurrences of the two-character terminator, scanned left
to right.  Always returns at least one (possibly empty) segment, exactly
like Python `str.split` with a separator argument. -/
def splitCRLF : List Char → List (List Char)
  | [] => [[]]
  | [c] => [[c]]
  | c1 :: c2 :: rest =>
    if c1 = '\r' ∧ c2 = '\n' then
      [] :: splitCRLF rest
    else
      match splitCRLF (c2 :: rest) with
      | [] => [[c1]]
      | s :: ss => (c1 :: s) :: ss

/-- Joins segments back with the CRLF terminator (inverse of `splitCRLF`,
used to state that splitting loses no characters). -/
def joinCRLF : List (List Char) → List Char
  | [] => []
  | [s] => s
  | s :: ss => s ++ '\r' :: '\n' :: joinCRLF ss

/-- One iteration of the inbound worker's leftover-buffer decoding, on
buffer `leftover ++ chunk`.  The segments before the last terminator are
the complete lines handed to the message processor (the worker joins them
back with the terminator and `_process_server_messages` re-splits them and
drops empty strings); the segment after the last terminator is the new
leftover.  When the buffer has no terminator, `splitCRLF` yields a single
segment, so this uniform form also covers the worker's `else` branch (no
lines processed, whole buffer kept as leftover). -/
def feed (leftover chunk : List Char) : List (List Char) × List Char :=
  (((splitCRLF (leftover ++ chunk)).dropLast).filter (fun m => m ≠ []),
    (splitCRLF (leftover ++ chunk)).getLastD [])

/-- Runs the inbound worker's decoding over successive reads, threading
the leftover buffer and collecting, in order, every complete line handed
to the message processor. -/
def feedMany (leftover : List Char) : List (List Char) → List (List Char) × List Char
  | [] => ([], leftover)
  | c :: cs =>
    ((feed leftover c).1 ++ (feedMany (feed leftover c).2 cs).1,
      (feedMany (feed leftover c).2 cs).2)

theorem splitCRLF_ne_nil (l : List Char) : splitCRLF l ≠ [] := by
  match l with
  | [] => simp [splitCRLF]
  | [c] => simp [splitCRLF]
  | c1 :: c2 :: rest =>
    unfold splitCRLF
    split
    · simp
    · split <;> simp

theorem splitCRLF_crlf (rest : List Char) :
    splitCRLF ('\r' :: '\n' :: rest) = [] :: splitCRLF rest := by
  rw [splitCRLF.eq_def]
  simp

theorem splitCRLF_cons_ne {c1 c2 : Char} (rest : List Char)
    (h : ¬(c1 = '\r' ∧ c2 = '\n')) {s : List Char} {ss : List (List Char)}
    (heq : splitCRLF (c2 :: rest) = s :: ss) :
    splitCRLF (c1 :: c2 :: rest) = (c1 :: s) :: ss := by
  rw [splitCRLF.eq_def]
  simp only [if_neg h]
  rw [heq]

theorem joinCRLF_single (s : List Char) : joinCRLF [s] = s := rfl

theorem joinCRLF_cons₂ (s t : List Char) (ts : List (List Char)) :
    joinCRLF (s :: t :: ts) = s ++ '\r' :: '\n' :: joinCRLF (t :: ts) := rfl

theorem splitCRLF_join (l : List Char) : joinCRLF (splitCRLF l) = l := by
  induction l using splitCRLF.induct with
  | case1 => rfl
  | case2 c => rfl
  | case3 c1 c2 rest h ih =>
    obtain ⟨h1, h2⟩ := h
    subst h1; subst h2
    rw [splitCRLF_crlf]
    obtain ⟨s, ss, hss⟩ := List.exists_cons_of_ne_nil (splitCRLF_ne_nil rest)
    rw [hss] at ih ⊢
    rw [joinCRLF_cons₂]
    simp [ih]
  | case4 c1 c2 rest h hnil ih => exact absurd hnil (splitCRLF_ne_nil _)
  | case5 c1 c2 rest h s ss heq ih =>
    rw [splitCRLF_cons_ne rest h heq]
    rw [heq] at ih
    cases ss with
    | nil =>
      rw [joinCRLF_single] at ih
      rw [joinCRLF_single, ih]
    | cons t ts =>
      rw [joinCRLF_cons₂] at ih ⊢
      show c1 :: (s ++ '\r' :: '\n' :: joinCRLF (t :: ts)) = c1 :: c2 :: rest
      rw [ih]

theorem splitCRLF_eq_singleton {l s : List Char} (h : splitCRLF l = [s]) : s = l := by
  have hj := splitCRLF_join l
  rw [h, joinCRLF_single] at hj
  exact hj

theorem dropLast_cons_ne_nil {α : Type} (x : α) {l : List α} (h : l ≠ []) :
    (x :: l).dropLast = x :: l.dropLast := by
  cases l with
  | nil => exact absurd rfl h
  | cons y ys => rfl

theorem dropLast_append_ne {α : Type} (l1 : List α) {l2 : List α} (h : l2 ≠ []) :
    (l1 ++ l2).dropLast = l1 ++ l2.dropLast := by
  induction l1 with
  | nil => rfl
  | cons x l1 ih =>
    have hne : l1 ++ l2 ≠ [] := by
      intro hc
      exact h (List.append_eq_nil.mp hc).2
    rw [List.cons_append, dropLast_cons_ne_nil x hne, ih, List.cons_append]

theorem getLastD_irrel {α : Type} {l : List α} (h : l ≠ []) (d d' : α) :
    l.getLastD d = l.getLastD d' := by
  cases l with
  | nil => exact absurd rfl h
  | cons x xs => rw [List.getLastD_cons, List.getLastD_cons]

theorem getLastD_append_ne {α : Type} (l1 : List α) {l2 : List α} (h : l2 ≠ []) (d : α) :
    (l1 ++ l2).getLastD d = l2.getLastD d := by
  induction l1 generalizing d with
  | nil => rfl
  | cons x l1 ih =>
    rw [List.cons_append, List.getLastD_cons, ih x, getLastD_irrel h x d]

/-- Splitting a concatenation: the segments of `a ++ b` are the complete
segments of `a` followed by the segments of (last segment of `a`) ++ `b`.
This is the heart of split-invariance: a terminator may straddle the
boundary between `a` and `b`, and the leftover carries the partial data
across. -/
theorem splitCRLF_append (a b : List Char) :
    splitCRLF (a ++ b)
      = (splitCRLF a).dropLast ++ splitCRLF ((splitCRLF a).getLastD [] ++ b) := by
  induction a using splitCRLF.induct with
  | case1 => simp [splitCRLF]
  | case2 c => simp [splitCRLF]
  | case3 c1 c2 rest h ih =>
    obtain ⟨h1, h2⟩ := h
    subst h1; subst h2
    have hne := splitCRLF_ne_nil rest
    rw [show (('\r' :: '\n' :: rest : List Char) ++ b) = '\r' :: '\n' :: (rest ++ b)
        from rfl]
    rw [splitCRLF_crlf, splitCRLF_crlf, ih, dropLast_cons_ne_nil _ hne,
      List.getLastD_cons]
    rfl
  | case4 c1 c2 rest h hnil ih => exact absurd hnil (splitCRLF_ne_nil _)
  | case5 c1 c2 rest h s ss heq ih =>
    cases ss with
    | nil =>
      obtain rfl : s = c2 :: rest := splitCRLF_eq_singleton heq
      rw [splitCRLF_cons_ne rest h heq]
      simp [List.getLastD_cons]
    | cons t ts =>
      have hc : splitCRLF ((c2 :: rest) ++ b)
          = s :: ((t :: ts).dropLast ++ splitCRLF (ts.getLastD t ++ b)) := by
        rw [ih, heq, dropLast_cons_ne_nil s (by simp), List.getLastD_cons,
          List.getLastD_cons]
        rfl
      rw [splitCRLF_cons_ne rest h heq]
      rw [show ((c1 :: c2 :: rest : List Char) ++ b) = c1 :: c2 :: (rest ++ b) from rfl]
      rw [splitCRLF_cons_ne (rest ++ b) h (show splitCRLF (c2 :: (rest ++ b)) = _ from hc)]
      rw [dropLast_cons_ne_nil _ (show (t :: ts : List (List Char)) ≠ [] by simp)]
      rw [List.getLastD_cons, List.getLastD_cons]
      rfl

/-- The leftover produced by a read never contains a terminator: splitting
it again yields a single segment.  This is the state invariant of the
inbound worker's buffer. -/
theorem splitCRLF_getLastD (a : List Char) :
    splitCRLF ((splitCRLF a).getLastD []) = [(splitCRLF a).getLastD []] := by
  induction a using splitCRLF.induct with
  | case1 => rfl
  | case2 c => rfl
  | case3 c1 c2 rest h ih =>
    obtain ⟨h1, h2⟩ := h
    subst h1; subst h2
    rw [splitCRLF_crlf, List.getLastD_cons]
    obtain ⟨s, ss, hss⟩ := List.exists_cons_of_ne_nil (splitCRLF_ne_nil rest)
    rw [hss] at ih ⊢
    rw [List.getLastD_cons] at ih ⊢
    exact ih
  | case4 c1 c2 rest h hnil ih => exact absurd hnil (splitCRLF_ne_nil _)
  | case5 c1 c2 rest h s ss heq ih =>
    rw [splitCRLF_cons_ne rest h heq]
    rw [heq] at ih
    cases ss with
    | nil =>
      rw [List.getLastD_cons, List.getLastD_nil]
      have hs : s = c2 :: rest := splitCRLF_eq_singleton heq
      have h2 := splitCRLF_cons_ne rest h heq
      rw [hs] at h2 ⊢
      exact h2
    | cons t ts =>
      rw [List.getLastD_cons, List.getLastD_cons] at ih ⊢
      exact ih

/-- Decoding chunk-by-chunk from a terminator-free leftover agrees with
decoding the concatenated stream in one step. -/
theorem feedMany_flatten (cs : List (List Char)) :
    ∀ l, splitCRLF l = [l] → feedMany l cs = feed l cs.flatten := by
  induction cs with
  | nil =>
    intro l hl
    rw [feedMany, feed, List.flatten_nil, List.append_nil, hl]
    rfl
  | cons c cs ih =>
    intro l hl
    have hlo : splitCRLF ((splitCRLF (l ++ c)).getLastD [])
        = [(splitCRLF (l ++ c)).getLastD []] := splitCRLF_getLastD (l ++ c)
    have hBne : splitCRLF ((splitCRLF (l ++ c)).getLastD [] ++ cs.flatten) ≠ [] :=
      splitCRLF_ne_nil _
    rw [feedMany]
    show ((feed l c).1 ++ (feedMany ((splitCRLF (l ++ c)).getLastD []) cs).1,
        (feedMany ((splitCRLF (l ++ c)).getLastD []) cs).2)
      = feed l (c :: cs).flatten
    rw [ih _ hlo, List.flatten_cons]
    simp only [feed]
    rw [show l ++ (c ++ cs.flatten) = (l ++ c) ++ cs.flatten from
      (List.append_assoc l c cs.flatten).symm]
    rw [splitCRLF_append (l ++ c) cs.flatten]
    rw [dropLast_append_ne _ hBne, getLastD_append_ne _ hBne, List.filter_append]

/-- C1 (frame-decoder split-invariance): delivering a logical byte stream
as an arbitrary partition of chunks across successive reads hands the
message processor exactly the same ordered sequence of complete lines (and
leaves the same final leftover) as delivering the whole stream in one
read. -/
theorem inbound_split_invariance (chunks : List (List Char)) :
    feedMany [] chunks = feed [] chunks.flatten :=
  feedMany_flatten chunks [] rfl

/-! ## Events (`Event`, `EventType`, lines 16-65, 587-602)

`Event.__init__(channel=None, command=None, message='')` maps the command
through a fixed table to `self.type`, stores `channel` and `_command`, and
sets `self.message` only when `message` is truthy.  Since the only read of
the attribute is `getattr(self, 'message', '')`, an unset message and the
empty string are indistinguishable, so the embedding stores the message
as a plain string with `""` for "unset".  Optional string attributes that
can also be Python `None` are `Option String`.
-/

/-- String constants of the `EventType` class. -/
def EventType.JOIN : String := "TWITCHCHATJOIN"

def EventType.LEAVE : String := "TWITCHCHATLEAVE"

def EventType.MESSAGE : String := "TWITCHCHATMESSAGE"

def EventType.MODE : String := "TWITCHCHATMODE"

def EventType.CLEARCHAT : String := "TWITCHCHATCLEARCHAT"

def EventType.HOSTTARGET : String := "TWITCHCHATHOSTTARGET"

def EventType.NOTICE : String := "TWITCHCHATNOTICE"

def EventType.RECONNECT : String := "TWITCHCHATRECONNECT"

def EventType.ROOMSTATE : String := "TWITCHCHATROOMSTATE"

def EventType.USERNOTICE : String := "TWITCHCHATUSERNOTICE"

def EventType.USERSTATE : String := "TWITCHCHATUSERSTATE"

def EventType.WHISPER : String := "TWITCHCHATWHISPER"

def EventType.COMMAND : String := "TWITCHCHATCOMMAND"

/-- The `command_to_type` lookup of `Event.__init__`: the twelve fixed
entries (`if command in command_to_type` rendered as an equality chain),
everything else (including `None` and numeric reply codes) falls through
to the generic `COMMAND` kind. -/
def commandToType (command : Option String) : String :=
  match command with
  | none => EventType.COMMAND
  | some cmd =>
    if cmd = "JOIN" then EventType.JOIN
    else if cmd = "PART" then EventType.LEAVE
    else if cmd = "PRIVMSG" then EventType.MESSAGE
    else if cmd = "MODE" then EventType.MODE
    else if cmd = "CLEARCHAT" then EventType.CLEARCHAT
    else if cmd = "HOSTTARGET" then EventType.HOSTTARGET
    else if cmd = "NOTICE" then EventType.NOTICE
    else if cmd = "RECONNECT" then EventType.RECONNECT
    else if cmd = "ROOMSTATE" then EventType.ROOMSTATE
    else if cmd = "USERNOTICE" then EventType.USERNOTICE
    else if cmd = "USERSTATE" then EventType.USERSTATE
    else if cmd = "WHISPER" then EventType.WHISPER
    else EventType.COMMAND

/-- A Twitch chat event.  Fields mirror the attributes set on the Python
object: `type`, `channel`, `_command` (here `command`), `message`
(with `""` for unset, see above), and the attributes assigned later by
`_process_server_messages`: `nickname`, `mode`, `tags`, `_params`
(here `params`). -/
structure Event where
  type : String
  channel : Option String
  command : Option String
  message : String
  nickname : Option String
  mode : Option String
  tags : Option (List (String × String))
  params : Option String
deriving DecidableEq

/-- The `Event.__init__` constructor: `Event(channel, command, message)`. -/
def mkEvent (channel : Option String) (command : Option String) (message : String) :
    Event :=
  { type := commandToType command
    channel := channel
    command := command
    message := message
    nickname := none
    mode := none
    tags := none
    params := none }

/-- Python string interpolation of a value that is either a string or
`None`: `'{}'.format(None)` produces the four characters `None`. -/
def pyStrOpt : Option String → String
  | none => "None"
  | some s => s

/-- The `Event.dumps` wire serializer:
`'{} #{}{}\r\n'.format(self._command, self.channel, message)` where
`message` is `' :' + self.message` when the message is truthy and the
empty string otherwise.  Note that the `#` and the channel interpolation
are unconditional. -/
def Event.dumps (e : Event) : String :=
  pyStrOpt e.command ++ " #" ++ pyStrOpt e.channel
    ++ (if e.message ≠ "" then " :" ++ e.message else "") ++ "\r\n"

/-- The event enqueued by `Observer.send_message(message, channel)`. -/
def sendMessageEvent (message : String) (channel : Option String) : Event :=
  mkEvent channel (some "PRIVMSG") message

/-- The event enqueued by `Observer.send_whisper(user, message)`, which
calls `send_message("/w {} {}".format(user, message), None)`. -/
def sendWhisperEvent (user message : String) : Event :=
  sendMessageEvent ("/w " ++ user ++ " " ++ message) none

theorem string_append_assoc (a b c : String) : a ++ b ++ c = a ++ (b ++ c) := by
  apply String.ext
  simp [String.data_append]

/-- C2 counterexample: the claim says the channel segment is omitted when
the channel is absent; but a whisper (enqueued with `channel=None`)
serializes with the channel segment present as the literal `#None`.  The
repository's own test suite pins this exact wire string
(`CLIENT_WHISPER_MESSAGE` in `tests/test_basic.py`). -/
theorem outbound_serialization_counterexample :
    (sendWhisperEvent "nickname" "message").dumps
        = "PRIVMSG #None :/w nickname message\r\n" ∧
    (sendWhisperEvent "nickname" "message").dumps
        ≠ "PRIVMSG :/w nickname message\r\n" := by
  constructor
  · rfl
  · decide

/-- C2 as amended: the serialized form is `<VERB> #<channel> :<body>` with
a trailing CRLF when a body is present, the body segment is omitted when
the body is empty, and the `#<channel>` segment is always present; an
absent channel is rendered as the literal text `None`. -/
theorem outbound_serialization (verb channel body : String) (h : body ≠ "") :
    (mkEvent (some channel) (some verb) body).dumps
        = verb ++ " #" ++ channel ++ " :" ++ body ++ "\r\n" ∧
    (mkEvent (some channel) (some verb) "").dumps
        = verb ++ " #" ++ channel ++ "\r\n" ∧
    (mkEvent none (some verb) body).dumps
        = verb ++ " #" ++ "None" ++ " :" ++ body ++ "\r\n" := by
  refine ⟨?_, ?_, ?_⟩
  · show verb ++ " #" ++ channel ++ (if body ≠ "" then " :" ++ body else "") ++ "\r\n"
        = verb ++ " #" ++ channel ++ " :" ++ body ++ "\r\n"
    rw [if_pos h, string_append_assoc (verb ++ " #" ++ channel) " :" body]
  · show verb ++ " #" ++ channel
        ++ (if ("" : String) ≠ "" then " :" ++ "" else "") ++ "\r\n"
        = verb ++ " #" ++ channel ++ "\r\n"
    rw [if_neg (by simp)]
    apply String.ext
    simp [String.data_append]
  · show verb ++ " #" ++ "None" ++ (if body ≠ "" then " :" ++ body else "") ++ "\r\n"
        = verb ++ " #" ++ "None" ++ " :" ++ body ++ "\r\n"
    rw [if_pos h, string_append_assoc (verb ++ " #" ++ "None") " :" body]

theorem outbound_serialization_witness :
    ("message" : String) ≠ "" ∧
    ((mkEvent (some "channel") (some "PRIVMSG") "message").dumps
        = "PRIVMSG" ++ " #" ++ "channel" ++ " :" ++ "message" ++ "\r\n" ∧
    (mkEvent (some "channel") (some "PRIVMSG") "").dumps
        = "PRIVMSG" ++ " #" ++ "channel" ++ "\r\n" ∧
    (mkEvent none (some "PRIVMSG") "message").dumps
        = "PRIVMSG" ++ " #" ++ "None" ++ " :" ++ "message" ++ "\r\n") :=
  ⟨by decide, outbound_serialization "PRIVMSG" "channel" "message" (by decide)⟩

/-- C7: the command token is mapped by the fixed twelve-entry table, and
every other token (such as a 3-digit numeric reply code) yields the
generic `COMMAND` kind while the event still carries the raw token in its
`_command` attribute. -/
theorem command_event_kind_mapping (cmd : String)
    (h : cmd ∉ (["JOIN", "PART", "PRIVMSG", "MODE", "CLEARCHAT", "HOSTTARGET",
        "NOTICE", "RECONNECT", "ROOMSTATE", "USERNOTICE", "USERSTATE",
        "WHISPER"] : List String)) :
    commandToType (some "JOIN") = EventType.JOIN ∧
    commandToType (some "PART") = EventType.LEAVE ∧
    commandToType (some "PRIVMSG") = EventType.MESSAGE ∧
    commandToType (some "MODE") = EventType.MODE ∧
    commandToType (some "CLEARCHAT") = EventType.CLEARCHAT ∧
    commandToType (some "HOSTTARGET") = EventType.HOSTTARGET ∧
    commandToType (some "NOTICE") = EventType.NOTICE ∧
    commandToType (some "RECONNECT") = EventType.RECONNECT ∧
    commandToType (some "ROOMSTATE") = EventType.ROOMSTATE ∧
    commandToType (some "USERNOTICE") = EventType.USERNOTICE ∧
    commandToType (some "USERSTATE") = EventType.USERSTATE ∧
    commandToType (some "WHISPER") = EventType.WHISPER ∧
    (mkEvent none (some cmd) "").type = EventType.COMMAND ∧
    (mkEvent none (some cmd) "").command = some cmd := by
  simp only [List.mem_cons, List.not_mem_nil, or_false, not_or] at h
  obtain ⟨h1, h2, h3, h4, h5, h6, h7, h8, h9, h10, h11, h12⟩ := h
  refine ⟨rfl, rfl, rfl, rfl, rfl, rfl, rfl, rfl, rfl, rfl, rfl, rfl, ?_, rfl⟩
  show commandToType (some cmd) = EventType.COMMAND
  simp only [commandToType, if_neg h1, if_neg h2, if_neg h3, if_neg h4, if_neg h5,
    if_neg h6, if_neg h7, if_neg h8, if_neg h9, if_neg h10, if_neg h11, if_neg h12]

theorem command_event_kind_mapping_witness :
    ("366" : String) ∉ (["JOIN", "PART", "PRIVMSG", "MODE", "CLEARCHAT",
        "HOSTTARGET", "NOTICE", "RECONNECT", "ROOMSTATE", "USERNOTICE",
        "USERSTATE", "WHISPER"] : List String) ∧
    (mkEvent none (some "366") "").type = EventType.COMMAND :=
  ⟨by decide, (command_event_kind_mapping "366" (by decide)).2.2.2.2.2.2.2.2.2.2.2.2.1⟩

/-! ## Tag-block parsing (`_process_server_messages`, lines 531-536)

When the tag capture group is truthy, the code runs
`for tag_pair in tags.split(';'): key, value = tag_pair.split('=');
event.tags[key] = value`.  The `split('=')` has no maxsplit, so the tuple
unpacking raises `ValueError` unless the entry contains exactly one `=`.
-/

/-- Python exceptions raised by the embedded code. -/
inductive PyError where
  | runtime (msg : String)
  | valueErr (msg : String)
  | badEvent (msg : String)
deriving DecidableEq

/-- Python `str.split(sep)` for a one-character separator: the segments
between occurrences of `sep`; always at least one (possibly empty)
segment. -/
def splitChar (sep : Char) : List Char → List (List Char)
  | [] => [[]]
  | c :: rest =>
    match splitChar sep rest with
    | [] => [[c]]
    | s :: ss => if c = sep then [] :: s :: ss else (c :: s) :: ss

/-- Python dict assignment `d[k] = v` on an insertion-ordered mapping:
overwrite in place when the key exists, append otherwise. -/
def dictInsert (d : List (String × String)) (k v : String) : List (String × String) :=
  if d.any (fun p => p.1 = k) then
    d.map (fun p => if p.1 = k then (k, v) else p)
  else d ++ [(k, v)]

/-- The tag-parsing loop: each entry must split on `=` into exactly two
parts, which become a key/value assignment; any other number of parts
makes the tuple unpacking raise `ValueError`. -/
def tagLoop : List (List Char) → List (String × String) →
    Except PyError (List (String × String))
  | [], acc => .ok acc
  | e :: rest, acc =>
    match splitChar '=' e with
    | [k, v] => tagLoop rest (dictInsert acc (String.mk k) (String.mk v))
    | _ => .error (.valueErr "tag entry did not split into exactly two values")

/-- Parsing of a whole (truthy) tag block: split on `;`, then run the
key/value loop on the entries, starting from an empty dict. -/
def buildTags (tags : List Char) : Except PyError (List (String × String)) :=
  tagLoop (splitChar ';' tags) []

instance {ε α : Type} [DecidableEq ε] [DecidableEq α] : DecidableEq (Except ε α) := by
  intro a b
  cases a <;> cases b
  · rename_i x y
    exact if h : x = y then .isTrue (by rw [h]) else .isFalse (by simp [h])
  · exact .isFalse (by simp)
  · exact .isFalse (by simp)
  · rename_i x y
    exact if h : x = y then .isTrue (by rw [h]) else .isFalse (by simp [h])

theorem tagLoop_cons_two {e k v : List Char} (heq : splitChar '=' e = [k, v])
    (rest : List (List Char)) (acc : List (String × String)) :
    tagLoop (e :: rest) acc
      = tagLoop rest (dictInsert acc (String.mk k) (String.mk v)) := by
  have hdef : tagLoop (e :: rest) acc
      = match splitChar '=' e with
        | [k, v] => tagLoop rest (dictInsert acc (String.mk k) (String.mk v))
        | _ => .error (.valueErr "tag entry did not split into exactly two values") :=
    rfl
  rw [hdef, heq]

theorem tagLoop_cons_three {e a b c : List Char} {cs : List (List Char)}
    (heq : splitChar '=' e = a :: b :: c :: cs)
    (rest : List (List Char)) (acc : List (String × String)) :
    tagLoop (e :: rest) acc
      = .error (.valueErr "tag entry did not split into exactly two values") := by
  have hdef : tagLoop (e :: rest) acc
      = match splitChar '=' e with
        | [k, v] => tagLoop rest (dictInsert acc (String.mk k) (String.mk v))
        | _ => .error (.valueErr "tag entry did not split into exactly two values") :=
    rfl
  rw [hdef, heq]

theorem splitChar_ne_nil (sep : Char) (l : List Char) : splitChar sep l ≠ [] := by
  match l with
  | [] => simp [splitChar]
  | c :: rest =>
    unfold splitChar
    split <;> try simp
    split <;> simp

theorem splitChar_cons (sep c : Char) (rest : List Char) {s : List Char}
    {ss : List (List Char)} (heq : splitChar sep rest = s :: ss) :
    splitChar sep (c :: rest)
      = if c = sep then [] :: s :: ss else (c :: s) :: ss := by
  have hdef : splitChar sep (c :: rest)
      = match splitChar sep rest with
        | [] => [[c]]
        | s :: ss => if c = sep then [] :: s :: ss else (c :: s) :: ss := rfl
  rw [hdef, heq]

theorem splitChar_not_mem {sep : Char} {l : List Char} (h : sep ∉ l) :
    splitChar sep l = [l] := by
  induction l with
  | nil => rfl
  | cons c rest ih =>
    have hc : c ≠ sep := fun hc => h (hc ▸ List.mem_cons_self c rest)
    have hr : sep ∉ rest := fun hr => h (List.mem_cons_of_mem c hr)
    rw [splitChar_cons sep c rest (by rw [ih hr]), if_neg hc]

theorem splitChar_append_sep {sep : Char} {x : List Char} (y : List Char)
    (hx : sep ∉ x) :
    splitChar sep (x ++ sep :: y) = x :: splitChar sep y := by
  induction x with
  | nil =>
    obtain ⟨s, ss, hss⟩ := List.exists_cons_of_ne_nil (splitChar_ne_nil sep y)
    rw [List.nil_append, splitChar_cons sep sep y hss, if_pos rfl, hss]
  | cons c x ih =>
    have hc : c ≠ sep := fun hc => hx (hc ▸ List.mem_cons_self c x)
    have hxx : sep ∉ x := fun hr => hx (List.mem_cons_of_mem c hr)
    obtain ⟨s, ss, hss⟩ :=
      List.exists_cons_of_ne_nil (splitChar_ne_nil sep (x ++ sep :: y))
    rw [List.cons_append, splitChar_cons sep c (x ++ sep :: y) hss, if_neg hc]
    rw [ih hxx] at hss
    obtain ⟨rfl, rfl⟩ : s = x ∧ ss = splitChar sep y := by
      cases hss
      exact ⟨rfl, rfl⟩
    rfl

theorem splitChar_length_two_le {sep : Char} {l : List Char} (h : sep ∈ l) :
    2 ≤ (splitChar sep l).length := by
  induction l with
  | nil => cases h
  | cons c rest ih =>
    obtain ⟨s, ss, hss⟩ := List.exists_cons_of_ne_nil (splitChar_ne_nil sep rest)
    rw [splitChar_cons sep c rest hss]
    by_cases hc : c = sep
    · rw [if_pos hc]
      simp
    · rw [if_neg hc]
      have hr : sep ∈ rest := by
        cases List.mem_cons.mp h with
        | inl h1 => exact absurd h1.symm hc
        | inr h2 => exact h2
      have := ih hr
      rw [hss] at this
      simpa using this

/-- Serializes key/value pairs into a wire tag block
`k1=v1;k2=v2;...` (used only to state the parsing theorem). -/
def joinSemi : List (List Char) → List Char
  | [] => []
  | [x] => x
  | x :: xs => x ++ ';' :: joinSemi xs

def tagBlockOfPairs (pairs : List (List Char × List Char)) : List Char :=
  joinSemi (pairs.map (fun p => p.1 ++ '=' :: p.2))

theorem splitChar_joinSemi {entries : List (List Char)} (hne : entries ≠ [])
    (h : ∀ e ∈ entries, ';' ∉ e) :
    splitChar ';' (joinSemi entries) = entries := by
  induction entries with
  | nil => exact absurd rfl hne
  | cons x xs ih =>
    cases xs with
    | nil =>
      rw [show joinSemi [x] = x from rfl]
      exact splitChar_not_mem (h x (List.mem_cons_self x []))
    | cons y ys =>
      rw [show joinSemi (x :: y :: ys) = x ++ ';' :: joinSemi (y :: ys) from rfl]
      rw [splitChar_append_sep _ (h x (List.mem_cons_self x _))]
      rw [ih (by simp) (fun e he => h e (List.mem_cons_of_mem x he))]

theorem dictInsert_not_mem {d : List (String × String)} {k : String}
    (h : k ∉ d.map Prod.fst) (v : String) : dictInsert d k v = d ++ [(k, v)] := by
  unfold dictInsert
  rw [if_neg]
  intro hc
  obtain ⟨p, hp, hpk⟩ := List.any_eq_true.mp hc
  exact h (List.mem_map.mpr ⟨p, hp, of_decide_eq_true hpk⟩)

theorem tagLoop_ok (pairs : List (List Char × List Char)) :
    ∀ acc : List (String × String),
    (∀ p ∈ pairs, '=' ∉ p.1 ∧ '=' ∉ p.2) →
    (∀ p ∈ pairs, String.mk p.1 ∉ acc.map Prod.fst) →
    (pairs.map (fun p => String.mk p.1)).Nodup →
    tagLoop (pairs.map (fun p => p.1 ++ '=' :: p.2)) acc
      = .ok (acc ++ pairs.map (fun p => (String.mk p.1, String.mk p.2))) := by
  induction pairs with
  | nil =>
    intro acc _ _ _
    simp [tagLoop]
  | cons p ps ih =>
    intro acc hwf hacc hnd
    have hp := hwf p (List.mem_cons_self p ps)
    have hsplit : splitChar '=' (p.1 ++ '=' :: p.2) = [p.1, p.2] := by
      rw [splitChar_append_sep _ hp.1, splitChar_not_mem hp.2]
    rw [List.map_cons, tagLoop_cons_two hsplit]
    rw [dictInsert_not_mem (hacc p (List.mem_cons_self p ps))]
    rw [ih (acc ++ [(String.mk p.1, String.mk p.2)])
      (fun q hq => hwf q (List.mem_cons_of_mem p hq))
      (fun q hq => by
        rw [List.map_append]
        intro hc
        cases List.mem_append.mp hc with
        | inl h1 => exact hacc q (List.mem_cons_of_mem p hq) h1
        | inr h2 =>
          simp only [List.map_cons, List.map_nil, List.mem_singleton] at h2
          have hq1 : String.mk q.1 ∈ ps.map (fun r => String.mk r.1) :=
            List.mem_map.mpr ⟨q, hq, rfl⟩
          rw [List.map_cons, List.nodup_cons] at hnd
          exact hnd.1 (h2 ▸ hq1))
      (by rw [List.map_cons, List.nodup_cons] at hnd; exact hnd.2)]
    rw [List.append_assoc, List.map_cons, List.singleton_append]

/-- C3 counterexample: the claim says an entry is split on the *first*
`=` so that a value containing `=` parses successfully; in the code the
tuple unpacking `key, value = tag_pair.split('=')` gets three parts for
`key=a=b` and raises `ValueError`, so parsing fails rather than producing
the pair `(key, a=b)`.  The empty-value entry `color=` does parse. -/
theorem tag_parsing_counterexample :
    buildTags ("key=a=b".data)
        = .error (.valueErr "tag entry did not split into exactly two values") ∧
    buildTags ("key=a=b".data) ≠ .ok [("key", "a=b")] ∧
    buildTags ("color=".data) = .ok [("color", "")] := by
  refine ⟨by decide, ?_, by decide⟩
  intro hc
  have : (Except.error (PyError.valueErr
      "tag entry did not split into exactly two values") :
      Except PyError (List (String × String))) = .ok [("key", "a=b")] := by
    rw [← hc]
    decide
  cases this

/-- C3 as amended: the tag block is split on `;` and every entry must
split on `=` into exactly one key and one value, which are attached in
order to the event's tag mapping (an empty value such as `color=` is
preserved as the empty string, e.g. by taking the value component empty);
an entry whose value itself contains an `=` does not parse — the
unpacking raises `ValueError` instead of splitting on the first `=`. -/
theorem tag_block_parsing (pairs : List (List Char × List Char)) (k w : List Char)
    (hne : pairs ≠ [])
    (hwf : ∀ p ∈ pairs, ('=' ∉ p.1 ∧ '=' ∉ p.2) ∧ (';' ∉ p.1 ∧ ';' ∉ p.2))
    (hnd : (pairs.map (fun p => String.mk p.1)).Nodup)
    (hk : '=' ∉ k) (hks : ';' ∉ k) (hw : '=' ∈ w) (hws : ';' ∉ w) :
    buildTags (tagBlockOfPairs pairs)
        = .ok (pairs.map (fun p => (String.mk p.1, String.mk p.2))) ∧
    buildTags (k ++ '=' :: w)
        = .error (.valueErr "tag entry did not split into exactly two values") := by
  constructor
  · unfold buildTags tagBlockOfPairs
    rw [splitChar_joinSemi (by simpa using hne)
      (by
        intro e he
        obtain ⟨p, hp, rfl⟩ := List.mem_map.mp he
        obtain ⟨-, hp2⟩ := hwf p hp
        intro hc
        cases List.mem_append.mp hc with
        | inl h1 => exact hp2.1 h1
        | inr h2 =>
          cases List.mem_cons.mp h2 with
          | inl h3 => cases h3
          | inr h4 => exact hp2.2 h4)]
    rw [tagLoop_ok pairs [] (fun p hp => (hwf p hp).1) (by simp) hnd]
    rw [List.nil_append]
  · unfold buildTags
    have hblock : ';' ∉ k ++ '=' :: w := by
      intro hc
      cases List.mem_append.mp hc with
      | inl h1 => exact hks h1
      | inr h2 =>
        cases List.mem_cons.mp h2 with
        | inl h3 => cases h3
        | inr h4 => exact hws h4
    rw [splitChar_not_mem hblock]
    have hsplit : splitChar '=' (k ++ '=' :: w) = k :: splitChar '=' w :=
      splitChar_append_sep _ hk
    obtain ⟨a, az, haz⟩ := List.exists_cons_of_ne_nil (splitChar_ne_nil '=' w)
    have hlen := splitChar_length_two_le hw
    rw [haz] at hsplit hlen
    obtain ⟨b, bz, hbz⟩ : ∃ b bz, az = b :: bz := by
      cases az with
      | nil => simp at hlen
      | cons b bz => exact ⟨b, bz, rfl⟩
    rw [hbz] at hsplit
    exact tagLoop_cons_three hsplit [] []

theorem tag_block_parsing_witness :
    (([("badges".data, "moderator/1".data), ("color".data, "".data)] :
        List (List Char × List Char)) ≠ [] ∧
      (buildTags (tagBlockOfPairs
          [("badges".data, "moderator/1".data), ("color".data, "".data)])
        = .ok [("badges", "moderator/1"), ("color", "")] ∧
      buildTags ("key".data ++ '=' :: "a=b".data)
        = .error (.valueErr "tag entry did not split into exactly two values"))) := by
  refine ⟨by decide, ?_⟩
  have h := tag_block_parsing
    [("badges".data, "moderator/1".data), ("color".data, "".data)]
    "key".data "a=b".data (by decide) (by decide) (by decide) (by decide)
    (by decide) (by decide) (by decide)
  exact ⟨h.1, h.2⟩

/-! ## Regular expressions (lines 68-78)

The module compiles four patterns: `_server_message_re`,
`_privmsg_params_re`, `_whisper_params_re` and `_mode_params_re`.  They
are embedded as ASTs for a leftmost, greedy, backtracking matcher — the
semantics of Python `re` restricted to the constructs these patterns use.
Character classes are the ASCII reading of `\w`, `\s`, `\S`, `\d`,
`[A-Z]`, `[+-]`, `[^\r\n]`, `[\s\S]` and `.` (every character fed to them
by this module is ASCII). -/

/-- The four capture groups of a match (a group that did not participate
is `none`, like Python's `None`). -/
structure Caps where
  g1 : Option (List Char)
  g2 : Option (List Char)
  g3 : Option (List Char)
  g4 : Option (List Char)
deriving DecidableEq

def emptyCaps : Caps := ⟨none, none, none, none⟩

def setCap (caps : Caps) (n : Nat) (v : List Char) : Caps :=
  match n with
  | 1 => { caps with g1 := some v }
  | 2 => { caps with g2 := some v }
  | 3 => { caps with g3 := some v }
  | 4 => { caps with g4 := some v }
  | _ => caps

/-- Regex AST.  Quantifiers appear only over single-character classes,
which is all the module's patterns need (`\S*`, `\s+` as class-then-star,
`\w*`, `[A-Z]*`, `\d{3}` as three classes, `[\s\S]*`, `[^\r\n]*`). -/
inductive RE where
  | epsilon : RE
  | chr : Char → RE
  | cls : (Char → Bool) → RE
  | seq : RE → RE → RE
  | alt : RE → RE → RE
  | opt : RE → RE
  | star : (Char → Bool) → RE
  | group : Nat → RE → RE

/-- Greedy backtracking over how many class characters a starred class
consumes: longest first, down to zero. -/
def tryLen (s : List Char) (caps : Caps) (k : List Char → Caps → Option Caps) :
    Nat → Option Caps
  | 0 => k s caps
  | n + 1 =>
    match k (s.drop (n + 1)) caps with
    | some r => some r
    | none => tryLen s caps k n

/-- The backtracking matcher, in continuation style.  Alternation tries
the left branch first; `?` prefers presence; starred classes are greedy;
a group records the exact substring its body consumed on the succeeding
path. -/
def matchRE : RE → List Char → Caps → (List Char → Caps → Option Caps) →
    Option Caps
  | .epsilon, s, caps, k => k s caps
  | .chr c, s, caps, k =>
    match s with
    | [] => none
    | x :: rest => if x = c then k rest caps else none
  | .cls p, s, caps, k =>
    match s with
    | [] => none
    | x :: rest => if p x then k rest caps else none
  | .seq a b, s, caps, k => matchRE a s caps (fun s2 caps2 => matchRE b s2 caps2 k)
  | .alt a b, s, caps, k =>
    match matchRE a s caps k with
    | some r => some r
    | none => matchRE b s caps k
  | .opt a, s, caps, k =>
    match matchRE a s caps k with
    | some r => some r
    | none => k s caps
  | .star p, s, caps, k => tryLen s caps k (s.takeWhile p).length
  | .group n a, s, caps, k =>
    matchRE a s caps
      (fun s2 caps2 => k s2 (setCap caps2 n (s.take (s.length - s2.length))))

/-- Python `re.match`: anchored at the start of the input, trailing input
allowed. -/
def reMatch (re : RE) (s : List Char) : Option Caps :=
  matchRE re s emptyCaps (fun _ caps => some caps)

def pySpaceChar (c : Char) : Bool :=
  c = ' ' || c = '\t' || c = '\n' || c = '\r' || c = '\x0b' || c = '\x0c'

def pyNotSpaceChar (c : Char) : Bool := !(pySpaceChar c)

def pyWordChar (c : Char) : Bool := c.isAlphanum || c = '_'

def pyDigitChar (c : Char) : Bool := c.isDigit

def pyUpperChar (c : Char) : Bool := 'A' ≤ c && c ≤ 'Z'

def pyAnyChar (c : Char) : Bool := c != '\n'

def pyNotCRLFChar (c : Char) : Bool := c != '\r' && c != '\n'

def reSeqAll : List RE → RE
  | [] => .epsilon
  | [r] => r
  | r :: rest => .seq r (reSeqAll rest)

/-- `X+` for a character class, as class-then-star: same greedy
backtracking order (longest first, at least one). -/
def rePlus (p : Char → Bool) : RE := .seq (.cls p) (.star p)

/-- The raw text `tmi.twitch.tv` inside a pattern: the dots are
metacharacters matching any character. -/
def reTmiTwitchTv : RE :=
  reSeqAll [.chr 't', .chr 'm', .chr 'i', .cls pyAnyChar, .chr 't', .chr 'w',
    .chr 'i', .chr 't', .chr 'c', .chr 'h', .cls pyAnyChar, .chr 't', .chr 'v']

/-- `_server_message_re`:
`(?:@(\S*)\s+)?:(\w*|tmi.twitch.tv)(?:!\w*)?(?:@\w*.tmi.twitch.tv)?\s+([A-Z]*|\d{3})\s+([^\r\n]*)` -/
def serverMessageRE : RE :=
  reSeqAll [
    .opt (reSeqAll [.chr '@', .group 1 (.star pyNotSpaceChar), rePlus pySpaceChar]),
    .chr ':',
    .group 2 (.alt (.star pyWordChar) reTmiTwitchTv),
    .opt (reSeqAll [.chr '!', .star pyWordChar]),
    .opt (reSeqAll [.chr '@', .star pyWordChar, .cls pyAnyChar, reTmiTwitchTv]),
    rePlus pySpaceChar,
    .group 3 (.alt (.star pyUpperChar)
      (reSeqAll [.cls pyDigitChar, .cls pyDigitChar, .cls pyDigitChar])),
    rePlus pySpaceChar,
    .group 4 (.star pyNotCRLFChar)]

/-- `_privmsg_params_re`: `#(\w+) :([\s\S]*)` -/
def privmsgParamsRE : RE :=
  reSeqAll [.chr '#', .group 1 (rePlus pyWordChar), .chr ' ', .chr ':',
    .group 2 (.star (fun _ => true))]

/-- `_whisper_params_re`: `(\w+)\s+:([\s\S]*)` -/
def whisperParamsRE : RE :=
  reSeqAll [.group 1 (rePlus pyWordChar), rePlus pySpaceChar, .chr ':',
    .group 2 (.star (fun _ => true))]

/-- `_mode_params_re`: `#(\w+)\s+([+-]o)\s+(\w+)` -/
def modeParamsRE : RE :=
  reSeqAll [.chr '#', .group 1 (rePlus pyWordChar), rePlus pySpaceChar,
    .group 2 (.seq (.cls (fun c => c = '+' || c = '-')) (.chr 'o')),
    rePlus pySpaceChar, .group 3 (rePlus pyWordChar)]

/-! ## Observer state, dispatch and the message processor
(`Observer`, `_process_server_messages`, lines 88-157, 510-577)

Socket writes, the two queues, recorded warnings and the socket's
open/closed status become explicit state.  A subscriber callback is its
Python identity data plus a function from events to `Except`, where an
`error` models the callback raising. -/

/-- A subscriber callback: `__name__`, the source location the traceback
reports (filename and line), and its behavior on an event
(`Except.error detail` models the callback raising, with `detail`
standing for the exception type and value). -/
structure Callback where
  name : String
  loc : String
  run : Event → Except String Unit

/-- The warning `_notify_subscribers` records when a callback raises:
Python formats the callback name, traceback location and error detail
into one message. -/
def mkCallbackWarning (cb : Callback) (err : String) : String :=
  "Callback " ++ cb.name ++ " raised an error:\n" ++ cb.loc ++ ": " ++ err

/-- `Observer._notify_subscribers` (lines 122-135): invoke every
subscriber in registration order; the bare `except:` catches anything a
callback raises, records the warning, and continues with the next
callback.  Returns the warnings recorded during the fan-out. -/
def notifySubscribers (subs : List Callback) (e : Event) : List String :=
  match subs with
  | [] => []
  | cb :: rest =>
    match cb.run e with
    | .ok _ => notifySubscribers rest e
    | .error msg => mkCallbackWarning cb msg :: notifySubscribers rest e

/-- Observable state of one `Observer` and its socket: subscriber list,
the two event queues, everything written to the socket (in order), the
warnings recorded (in order), and whether the socket is open. -/
structure ObserverState where
  subscribers : List Callback
  inboundQueue : List Event
  outboundQueue : List Event
  sent : List String
  warnings : List String
  socketOpen : Bool

def pingLiteral : String := "PING :tmi.twitch.tv"

def pongLiteral : String := "PONG :tmi.twitch.tv\r\n"

def authFailureLiteral : String :=
  ":tmi.twitch.tv NOTICE * :Login authentication failed"

/-- Fan-out and enqueue once an event is built (lines 574-577): notify
all subscribers, then append the event to the inbound queue under its
lock.  Never raises. -/
def finishDispatch (st : ObserverState) (e : Event) : ObserverState × Option PyError :=
  ({ st with
      warnings := st.warnings ++ notifySubscribers st.subscribers e
      inboundQueue := st.inboundQueue ++ [e] }, none)

/-- The `if match:` body (lines 525-577): build the event from the four
capture groups (`tags, nick, cmd, params`), parse the tag block when it
is truthy (a `ValueError` there propagates, leaving observer state
untouched since the event was not yet dispatched), extract per-command
parameters (with the lenient warn-and-dispatch policy on parameter
mismatch, where the warning interpolates the whole raw line), then
dispatch. -/
def buildAndDispatch (st : ObserverState) (caps : Caps) (message : String) :
    ObserverState × Option PyError :=
  let cmd : String := String.mk (caps.g3.getD [])
  let params : List Char := caps.g4.getD []
  let ev0 : Event :=
    { mkEvent none (some cmd) "" with
        nickname := some (String.mk (caps.g2.getD []))
        params := some (String.mk params) }
  let tagsR : Except PyError (Option (List (String × String))) :=
    match caps.g1 with
    | some t => if t ≠ [] then (buildTags t).map some else .ok none
    | none => .ok none
  match tagsR with
  | .error e => (st, some e)
  | .ok tagsD =>
    let ev1 := { ev0 with tags := tagsD }
    if cmd = "JOIN" ∨ cmd = "PART" ∨ cmd = "USERSTATE" ∨ cmd = "ROOMSTATE" then
      finishDispatch st { ev1 with channel := some (String.mk (params.drop 1)) }
    else if cmd = "PRIVMSG" ∨ cmd = "HOSTTARGET" ∨ cmd = "NOTICE"
        ∨ cmd = "USERNOTICE" then
      match reMatch privmsgParamsRE params with
      | some pc =>
        finishDispatch st
          { ev1 with
              channel := some (String.mk (pc.g1.getD []))
              message := String.mk (pc.g2.getD []) }
      | none =>
        finishDispatch
          { st with warnings := st.warnings
              ++ ["Failed to process " ++ cmd ++ " message: " ++ message] } ev1
    else if cmd = "WHISPER" then
      match reMatch whisperParamsRE params with
      | some pc =>
        finishDispatch st { ev1 with message := String.mk (pc.g2.getD []) }
      | none =>
        finishDispatch
          { st with warnings := st.warnings
              ++ ["Failed to process " ++ cmd ++ " message: " ++ message] } ev1
    else if cmd = "MODE" then
      match reMatch modeParamsRE params with
      | some pc =>
        finishDispatch st
          { ev1 with
              channel := some (String.mk (pc.g1.getD []))
              mode := some (String.mk (pc.g2.getD []))
              nickname := some (String.mk (pc.g3.getD [])) }
      | none =>
        finishDispatch
          { st with warnings := st.warnings
              ++ ["Failed to process " ++ cmd ++ " message: " ++ message] } ev1
    else finishDispatch st ev1

/-- One iteration of the `for message in ...` loop of
`_process_server_messages` (lines 511-577): answer the ping literal with
a pong write; on the authentication-failure literal call
`stop(force_stop=True)` — during the synchronous handshake pass no worker
threads exist yet, so that call only closes the socket — and raise
`RuntimeError`; otherwise run the server-message regex and, on a match,
build and dispatch the event. -/
def processMessage (st : ObserverState) (message : String) :
    ObserverState × Option PyError :=
  let st1 := if message = pingLiteral
    then { st with sent := st.sent ++ [pongLiteral] } else st
  if message = authFailureLiteral then
    ({ st1 with socketOpen := false }, some (.runtime "Login authentication failed"))
  else
    match reMatch serverMessageRE message.data with
    | none => (st1, none)
    | some caps => buildAndDispatch st1 caps message

/-- The nonempty lines of a response:
`[m for m in response.split('\r\n') if m]`. -/
def pyLines (response : String) : List String :=
  ((splitCRLF response.data).filter (fun m => m ≠ [])).map String.mk

/-- The message loop of `_process_server_messages`: a raised exception
aborts the loop, but state changes already made (pong writes, dispatched
events, warnings) persist. -/
def processMessages (st : ObserverState) : List String → ObserverState × Option PyError
  | [] => (st, none)
  | m :: rest =>
    match processMessage st m with
    | (st1, some e) => (st1, some e)
    | (st1, none) => processMessages st1 rest

/-- Whole-response entry point `_process_server_messages(response)`. -/
def processServerMessages (st : ObserverState) (response : String) :
    ObserverState × Option PyError :=
  processMessages st (pyLines response)

/-- Result of the `start()` handshake: whether the worker pump threads
were created, whether the socket is still open, the exception raised (if
any), and the observer state after the synchronous pass. -/
structure StartResult where
  pumpsStarted : Bool
  socketOpen : Bool
  error : Option PyError
  state : ObserverState

def initialState (subs : List Callback) : ObserverState :=
  { subscribers := subs
    inboundQueue := []
    outboundQueue := []
    sent := []
    warnings := []
    socketOpen := true }

/-- The synchronous tail of `Observer.start` after the connect and
credential writes: `_process_server_messages(response)` runs on the
caller's thread (line 404); only when it returns normally does `start`
reach the code that creates and starts the two worker threads (lines
465-469), so any exception leaves both pumps unstarted.  `msgs` is the
list of nonempty lines of the first `recv`. -/
def startFromMessages (subs : List Callback) (msgs : List String) : StartResult :=
  match processMessages (initialState subs) msgs with
  | (st, some e) =>
    { pumpsStarted := false, socketOpen := st.socketOpen, error := some e, state := st }
  | (st, none) =>
    { pumpsStarted := true, socketOpen := st.socketOpen, error := none, state := st }

/-- `Observer.get_events` (lines 137-147): under the inbound lock, copy
the queue and reset it to empty; return the copy. -/
def getEvents (st : ObserverState) : List Event × ObserverState :=
  (st.inboundQueue, { st with inboundQueue := [] })

/-- A Python value passed to `_send_events`: either an `Event` instance
or some other object, carrying the text `type(event)` formats to. -/
inductive PyValue where
  | event (e : Event)
  | nonEvent (typeName : String)

/-- `Observer._send_events` (lines 149-157): under the outbound lock,
append each argument in order; the first argument that is not an `Event`
instance raises `BadEvent`, leaving the earlier appends in place. -/
def sendEventsLoop : List Event → List PyValue → List Event × Option PyError
  | queue, [] => (queue, none)
  | queue, .event e :: rest => sendEventsLoop (queue ++ [e]) rest
  | queue, .nonEvent ty :: _ =>
    (queue, some (.badEvent ("Invalid event type: " ++ ty)))

theorem processMessages_cons (st : ObserverState) (m : String) (rest : List String) :
    processMessages st (m :: rest)
      = match processMessage st m with
        | (st1, some e) => (st1, some e)
        | (st1, none) => processMessages st1 rest := rfl

theorem processMessages_append (ms ms2 : List String) :
    ∀ st : ObserverState, (processMessages st ms).2 = none →
    processMessages st (ms ++ ms2) = processMessages (processMessages st ms).1 ms2 := by
  induction ms with
  | nil => intro st _; rfl
  | cons m ms ih =>
    intro st h
    rw [List.cons_append, processMessages_cons]
    rw [processMessages_cons] at h
    cases hpm : processMessage st m with
    | mk st1 err =>
      rw [hpm] at h
      cases err with
      | some e => simp at h
      | none =>
        show processMessages st1 (ms ++ ms2) = _
        rw [ih st1 (by simpa using h)]
        conv_rhs => rw [processMessages_cons, hpm]

theorem processMessage_auth (st : ObserverState) :
    processMessage st authFailureLiteral
      = ({ st with socketOpen := false },
          some (.runtime "Login authentication failed")) := rfl

/-- C4: if the processing loop of the synchronous handshake pass reaches
the fixed authentication-failure literal (the lines before it having
raised nothing), `start()` closes the socket, raises the authentication
error — the spec's `AuthenticationError` is the
`RuntimeError('Login authentication failed')` of the code — and neither
worker pump is ever started. -/
theorem auth_failure_teardown (subs : List Callback) (pre post : List String)
    (h : (processMessages (initialState subs) pre).2 = none) :
    (startFromMessages subs (pre ++ authFailureLiteral :: post)).error
        = some (.runtime "Login authentication failed") ∧
    (startFromMessages subs (pre ++ authFailureLiteral :: post)).pumpsStarted
        = false ∧
    (startFromMessages subs (pre ++ authFailureLiteral :: post)).socketOpen
        = false := by
  unfold startFromMessages
  rw [processMessages_append pre (authFailureLiteral :: post) _ h]
  rw [processMessages_cons, processMessage_auth]
  exact ⟨rfl, rfl, rfl⟩

theorem auth_failure_teardown_witness :
    (processMessages (initialState []) []).2 = none ∧
    ((startFromMessages [] ([] ++ authFailureLiteral :: [])).error
        = some (.runtime "Login authentication failed") ∧
    (startFromMessages [] ([] ++ authFailureLiteral :: [])).pumpsStarted = false ∧
    (startFromMessages [] ([] ++ authFailureLiteral :: [])).socketOpen = false) :=
  ⟨rfl, auth_failure_teardown [] [] [] rfl⟩

/-- C6: a line exactly equal to the ping literal makes the processor send
exactly one pong on the connection and nothing else: the state is
unchanged except for the single pong write — no subscriber runs, nothing
is appended to the inbound queue, no warning, no error (the
server-message regex does not match the ping literal, since the literal
does not start with `@` or `:`). -/
theorem ping_keepalive (st : ObserverState) :
    processMessage st pingLiteral
      = ({ st with sent := st.sent ++ [pongLiteral] }, none) := rfl

/-- C8: `get_events` snapshots the inbound queue in arrival order and
clears it; with no intervening traffic a second call returns the empty
sequence. -/
theorem destructive_read (st : ObserverState) :
    (getEvents st).1 = st.inboundQueue ∧
    ((getEvents st).2).inboundQueue = [] ∧
    (getEvents ((getEvents st).2)).1 = [] :=
  ⟨rfl, rfl, rfl⟩

theorem notifySubscribers_cons_ok {cb : Callback} {e : Event} {u : Unit}
    (h : cb.run e = .ok u) (rest : List Callback) :
    notifySubscribers (cb :: rest) e = notifySubscribers rest e := by
  have hdef : notifySubscribers (cb :: rest) e
      = match cb.run e with
        | .ok _ => notifySubscribers rest e
        | .error msg => mkCallbackWarning cb msg :: notifySubscribers rest e := rfl
  rw [hdef, h]

theorem notifySubscribers_cons_err {cb : Callback} {e : Event} {msg : String}
    (h : cb.run e = .error msg) (rest : List Callback) :
    notifySubscribers (cb :: rest) e
      = mkCallbackWarning cb msg :: notifySubscribers rest e := by
  have hdef : notifySubscribers (cb :: rest) e
      = match cb.run e with
        | .ok _ => notifySubscribers rest e
        | .error msg => mkCallbackWarning cb msg :: notifySubscribers rest e := rfl
  rw [hdef, h]

theorem notifySubscribers_append (pre post : List Callback) (e : Event) :
    notifySubscribers (pre ++ post) e
      = notifySubscribers pre e ++ notifySubscribers post e := by
  induction pre with
  | nil => rfl
  | cons cb rest ih =>
    rw [List.cons_append]
    cases hcb : cb.run e with
    | ok u =>
      rw [notifySubscribers_cons_ok hcb, notifySubscribers_cons_ok hcb, ih]
    | error msg =>
      rw [notifySubscribers_cons_err hcb, notifySubscribers_cons_err hcb, ih,
        List.cons_append]

/-- C9: when a callback in the middle of the subscriber list raises, the
dispatcher records exactly one warning for it (carrying the callback's
identity, traceback location and error detail) and still runs every
earlier and later callback in registration order; and the dispatch still
appends the event to the inbound queue and raises nothing. -/
theorem subscriber_failure_isolation (pre post : List Callback) (cb : Callback)
    (st : ObserverState) (e : Event) (msg : String) (h : cb.run e = .error msg) :
    notifySubscribers (pre ++ cb :: post) e
      = notifySubscribers pre e
        ++ mkCallbackWarning cb msg :: notifySubscribers post e ∧
    (finishDispatch st e).1.inboundQueue = st.inboundQueue ++ [e] ∧
    (finishDispatch st e).1.warnings
      = st.warnings ++ notifySubscribers st.subscribers e ∧
    (finishDispatch st e).2 = none := by
  refine ⟨?_, rfl, rfl, rfl⟩
  rw [notifySubscribers_append, notifySubscribers_cons_err h]

def goodCallback : Callback :=
  { name := "good", loc := "handlers.py:3", run := fun _ => Except.ok () }

def badCallback : Callback :=
  { name := "bad", loc := "handlers.py:7",
    run := fun _ => Except.error "RuntimeError: boom" }

theorem subscriber_failure_isolation_witness :
    badCallback.run (mkEvent none (some "JOIN") "")
        = .error "RuntimeError: boom" ∧
    (notifySubscribers ([goodCallback] ++ badCallback :: [goodCallback])
        (mkEvent none (some "JOIN") "")
      = notifySubscribers [goodCallback] (mkEvent none (some "JOIN") "")
        ++ mkCallbackWarning badCallback "RuntimeError: boom"
          :: notifySubscribers [goodCallback] (mkEvent none (some "JOIN") "") ∧
    (finishDispatch (initialState []) (mkEvent none (some "JOIN") "")).1.inboundQueue
      = (initialState []).inboundQueue ++ [mkEvent none (some "JOIN") ""] ∧
    (finishDispatch (initialState []) (mkEvent none (some "JOIN") "")).1.warnings
      = (initialState []).warnings
        ++ notifySubscribers (initialState []).subscribers
            (mkEvent none (some "JOIN") "") ∧
    (finishDispatch (initialState []) (mkEvent none (some "JOIN") "")).2 = none) :=
  ⟨rfl, subscriber_failure_isolation [goodCallback] [goodCallback] badCallback
    (initialState []) (mkEvent none (some "JOIN") "") "RuntimeError: boom" rfl⟩

theorem sendEventsLoop_events (pre : List Event) :
    ∀ (q : List Event) (rest : List PyValue),
    sendEventsLoop q (pre.map PyValue.event ++ rest)
      = sendEventsLoop (q ++ pre) rest := by
  induction pre with
  | nil =>
    intro q rest
    rw [List.map_nil, List.nil_append, List.append_nil]
  | cons e es ih =>
    intro q rest
    rw [List.map_cons, List.cons_append]
    show sendEventsLoop (q ++ [e]) (es.map PyValue.event ++ rest)
      = sendEventsLoop (q ++ e :: es) rest
    rw [ih, List.append_assoc, List.singleton_append]

/-- C10: `_send_events` called with valid events followed by a non-Event
value appends every earlier valid event to the outbound queue before
raising `BadEvent`, so a failed enqueue call does not leave the queue
unchanged. -/
theorem send_events_not_atomic (q pre : List Event) (ty : String)
    (post : List PyValue) (h : pre ≠ []) :
    sendEventsLoop q (pre.map PyValue.event ++ PyValue.nonEvent ty :: post)
      = (q ++ pre, some (.badEvent ("Invalid event type: " ++ ty))) ∧
    q ++ pre ≠ q := by
  constructor
  · rw [sendEventsLoop_events pre q (PyValue.nonEvent ty :: post)]
    rfl
  · intro hc
    have hlen := congrArg List.length hc
    rw [List.length_append] at hlen
    have hz : pre.length = 0 := by omega
    exact h (List.length_eq_zero.mp hz)

theorem send_events_not_atomic_witness :
    ([mkEvent (some "channel") (some "JOIN") ""] : List Event) ≠ [] ∧
    (sendEventsLoop [] ([mkEvent (some "channel") (some "JOIN") ""].map
          PyValue.event ++ PyValue.nonEvent "<class str>" :: [])
      = ([] ++ [mkEvent (some "channel") (some "JOIN") ""],
          some (.badEvent ("Invalid event type: " ++ "<class str>"))) ∧
      [] ++ [mkEvent (some "channel") (some "JOIN") ""] ≠ ([] : List Event)) :=
  ⟨by simp,
    send_events_not_atomic [] [mkEvent (some "channel") (some "JOIN") ""]
      "<class str>" [] (by simp)⟩

/-! ## Outbound pump and rate limiter (`outbound_worker`, lines 441-463)

The pump loops: when the outbound queue is non-empty and
`time.time() - self._last_time_sent > self._outbound_send_interval`, it
pops the oldest event, writes it, and sets `_last_time_sent = time.time()`
(a second, no-earlier clock read).  Wall-clock time is modelled by
rational timestamps supplied with each loop iteration; monotonicity of
the clock is an explicit hypothesis.  Enqueues from the caller's thread
may interleave anywhere between iterations. -/

/-- `_outbound_send_interval = 30 / 20` seconds. -/
def outboundSendInterval : ℚ := 30 / 20

/-- The state the outbound pump reads and writes: the outbound queue and
`_last_time_sent`. -/
structure OutboundPumpState where
  queue : List Event
  lastTimeSent : ℚ

/-- One scheduling step: either the caller thread appends an event
(`_send_events`), or the pump runs one loop iteration, reading the clock
at the guard (`tCheck`) and again after the write (`tSend`). -/
inductive PumpStep where
  | enqueue (e : Event)
  | iterate (tCheck tSend : ℚ)

/-- Effect of one step: the guard transmits only when the queue is
non-empty and the elapsed time since `_last_time_sent` strictly exceeds
the interval; a transmission pops the head, records the event with its
new `_last_time_sent` timestamp, and stores that timestamp. -/
def outboundStep (s : OutboundPumpState) :
    PumpStep → OutboundPumpState × Option (Event × ℚ)
  | .enqueue e => ({ s with queue := s.queue ++ [e] }, none)
  | .iterate tCheck tSend =>
    match s.queue with
    | [] => (s, none)
    | e :: rest =>
      if outboundSendInterval < tCheck - s.lastTimeSent then
        ({ queue := rest, lastTimeSent := tSend }, some (e, tSend))
      else (s, none)

/-- Runs a whole schedule, collecting the transmissions in order. -/
def outboundRun : OutboundPumpState → List PumpStep →
    OutboundPumpState × List (Event × ℚ)
  | s, [] => (s, [])
  | s, step :: rest =>
    ((outboundRun (outboundStep s step).1 rest).1,
      (outboundStep s step).2.toList ++ (outboundRun (outboundStep s step).1 rest).2)

/-- The clock never runs backwards along a schedule: each iteration's
guard read is at or after the previous timestamp, and its post-write read
is at or after its guard read. -/
def stepsMonotone : ℚ → List PumpStep → Bool
  | _, [] => true
  | t, .enqueue _ :: rest => stepsMonotone t rest
  | t, .iterate tc ts :: rest =>
    decide (t ≤ tc) && decide (tc ≤ ts) && stepsMonotone ts rest

theorem outboundRun_chain (steps : List PumpStep) :
    ∀ (s : OutboundPumpState) (t : ℚ), stepsMonotone t steps = true →
    s.lastTimeSent ≤ t →
    List.Chain' (fun a b => a + outboundSendInterval < b)
      (s.lastTimeSent :: (outboundRun s steps).2.map Prod.snd) := by
  induction steps with
  | nil =>
    intro s t _ _
    simp [outboundRun]
  | cons step rest ih =>
    intro s t hmono hst
    cases step with
    | enqueue e =>
      rw [outboundRun]
      show List.Chain' _ (s.lastTimeSent ::
        ([] ++ (outboundRun { s with queue := s.queue ++ [e] } rest).2.map Prod.snd))
      rw [List.nil_append]
      exact ih { s with queue := s.queue ++ [e] } t hmono hst
    | iterate tc ts =>
      have hm : t ≤ tc ∧ tc ≤ ts ∧ stepsMonotone ts rest = true := by
        have hdef : stepsMonotone t (.iterate tc ts :: rest)
            = (decide (t ≤ tc) && decide (tc ≤ ts) && stepsMonotone ts rest) := rfl
        rw [hdef] at hmono
        simp only [Bool.and_eq_true, decide_eq_true_eq] at hmono
        exact ⟨hmono.1.1, hmono.1.2, hmono.2⟩
      cases hq : s.queue with
      | nil =>
        rw [outboundRun]
        show List.Chain' _ (s.lastTimeSent ::
          ((outboundStep s (.iterate tc ts)).2.toList
            ++ (outboundRun (outboundStep s (.iterate tc ts)).1 rest).2).map Prod.snd)
        rw [show outboundStep s (.iterate tc ts) = (s, none) from by
          rw [outboundStep, hq]]
        show List.Chain' _ (s.lastTimeSent :: (outboundRun s rest).2.map Prod.snd)
        exact ih s ts hm.2.2 (le_trans hst (le_trans hm.1 hm.2.1))
      | cons e qrest =>
        by_cases hg : outboundSendInterval < tc - s.lastTimeSent
        · have hstep : outboundStep s (.iterate tc ts)
              = ({ queue := qrest, lastTimeSent := ts }, some (e, ts)) := by
            rw [outboundStep, hq]
            show (if outboundSendInterval < tc - s.lastTimeSent
                then (({ queue := qrest, lastTimeSent := ts } : OutboundPumpState),
                  some (e, ts))
                else (s, none)) = _
            rw [if_pos hg]
          rw [outboundRun, hstep]
          show List.Chain' _ (s.lastTimeSent :: ts ::
            (outboundRun { queue := qrest, lastTimeSent := ts } rest).2.map Prod.snd)
          rw [List.chain'_cons]
          constructor
          · have : s.lastTimeSent + outboundSendInterval < tc := by linarith
            linarith [hm.2.1]
          · exact ih { queue := qrest, lastTimeSent := ts } ts hm.2.2 (le_refl ts)
        · have hstep : outboundStep s (.iterate tc ts) = (s, none) := by
            rw [outboundStep, hq]
            show (if outboundSendInterval < tc - s.lastTimeSent
                then (({ queue := qrest, lastTimeSent := ts } : OutboundPumpState),
                  some (e, ts))
                else (s, none)) = _
            rw [if_neg hg]
          rw [outboundRun, hstep]
          show List.Chain' _ (s.lastTimeSent :: (outboundRun s rest).2.map Prod.snd)
          exact ih s ts hm.2.2 (le_trans hst (le_trans hm.1 hm.2.1))

/-- C5: along any schedule of pump iterations and caller enqueues with a
monotone clock, starting from construction time `t0` (where
`_last_time_sent` is initialized to the current time), every transmission
happens only when the elapsed time since the previously recorded send
timestamp strictly exceeds the minimum send interval, so consecutive
recorded send timestamps are spaced by more than (in particular, by at
least) the interval. -/
theorem rate_limiting (q0 : List Event) (t0 : ℚ) (steps : List PumpStep)
    (h : stepsMonotone t0 steps = true) :
    List.Chain' (fun a b => a + outboundSendInterval < b)
      ((outboundRun { queue := q0, lastTimeSent := t0 } steps).2.map Prod.snd) :=
  (outboundRun_chain steps { queue := q0, lastTimeSent := t0 } t0 h (le_refl t0)).tail

theorem rate_limiting_witness :
    stepsMonotone 0 [PumpStep.enqueue (mkEvent (some "channel") (some "JOIN") ""),
      PumpStep.enqueue (mkEvent (some "channel") (some "PART") ""),
      PumpStep.iterate 10 10, PumpStep.iterate 20 20] = true ∧
    List.Chain' (fun a b => a + outboundSendInterval < b)
      ((outboundRun { queue := [], lastTimeSent := 0 }
        [PumpStep.enqueue (mkEvent (some "channel") (some "JOIN") ""),
          PumpStep.enqueue (mkEvent (some "channel") (some "PART") ""),
          PumpStep.iterate 10 10, PumpStep.iterate 20 20]).2.map Prod.snd) :=
  ⟨by decide,
    rate_limiting [] 0 [PumpStep.enqueue (mkEvent (some "channel") (some "JOIN") ""),
      PumpStep.enqueue (mkEvent (some "channel") (some "PART") ""),
      PumpStep.iterate 10 10, PumpStep.iterate 20 20] (by decide)⟩
